import Mathlib

/-!
Verification development for the SACPWorkflow repository.

The Python sources are shallowly embedded: pure string/list manipulation is
translated to Lean functions over `String`, `List` and `ℚ`; filesystem state
is passed explicitly (directory listings become lists of entry records, file
reads become constructor values); fallible Python code (exceptions) returns
`Except`/`Option`.  Python floats are modelled as rationals: the only float
operations the code performs are parsing decimal literals, dividing by the
constant 18.2223 and fixed-point formatting with 5 decimals, all of which are
exact on the inputs exercised here (IEEE double rounding can differ from the
rational model only at half-ulp ties, which no statement below exercises).
File lines are modelled without their trailing newline characters; the only
place the trailing newline of `readlines` could matter is inside `.strip()`
calls, which remove it anyway.
-/

namespace SACP

/-! ## Models of Python string primitives -/

/-- Python slicing `s[a:b]` for `0 ≤ a ≤ b` (clamped at the string length). -/
def pySlice (s : String) (a b : Nat) : String :=
  String.mk ((s.data.drop a).take (b - a))

/-- Auxiliary scan for substring containment. -/
def subAux (pat : List Char) : List Char → Bool
  | [] => pat.isPrefixOf []
  | c :: rest => pat.isPrefixOf (c :: rest) || subAux pat rest

/-- Python `pat in s` (substring containment). -/
def containsSub (s pat : String) : Bool := subAux pat.data s.data

/-- Python `s.strip()` : drop leading and trailing whitespace (the file
formats here never contain the rarer `\x0b`/`\x0c` whitespace). -/
def pyStrip (s : String) : String :=
  String.mk (((s.data.dropWhile Char.isWhitespace).reverse.dropWhile
    Char.isWhitespace).reverse)

/-- Python `s.startswith(pat)`. -/
def pyStartsWith (s pat : String) : Bool := pat.data.isPrefixOf s.data

/-- Accumulating splitter behind `pySplitWs` (current token is reversed). -/
def pySplitWsAux : List Char → List Char → List String
  | cur, [] => if cur.isEmpty then [] else [String.mk cur.reverse]
  | cur, c :: rest =>
    if c.isWhitespace then
      (if cur.isEmpty then pySplitWsAux [] rest
       else String.mk cur.reverse :: pySplitWsAux [] rest)
    else pySplitWsAux (c :: cur) rest

/-- Python `s.split()` : split on whitespace runs, dropping empty pieces. -/
def pySplitWs (s : String) : List String := pySplitWsAux [] s.data

/-- Decimal digit list to `Nat`. -/
def natOfDigits (l : List Char) : Nat :=
  l.foldl (fun a c => a * 10 + (c.toNat - 48)) 0

def allDigits (l : List Char) : Bool := l.all (fun c => c.isDigit)

/-- Mantissa of a Python float literal (no sign): `digits[.digits]` or `.digits`. -/
def parseMant (l : List Char) : Option ℚ :=
  match l.span (fun c => c ≠ '.') with
  | (ip, []) =>
      if ip ≠ [] && allDigits ip then some (natOfDigits ip) else none
  | (ip, _ :: fp) =>
      if (ip ≠ [] || fp ≠ []) && allDigits ip && allDigits fp then
        some ((natOfDigits ip : ℚ) + (natOfDigits fp : ℚ) / (10 : ℚ) ^ fp.length)
      else none

/-- Optional exponent part of a Python float literal. -/
def parseExp (m : ℚ) : List Char → Option ℚ
  | '+' :: ds => if ds ≠ [] && allDigits ds then some (m * (10 : ℚ) ^ natOfDigits ds) else none
  | '-' :: ds => if ds ≠ [] && allDigits ds then some (m / (10 : ℚ) ^ natOfDigits ds) else none
  | ds => if ds ≠ [] && allDigits ds then some (m * (10 : ℚ) ^ natOfDigits ds) else none

def parseRatNoSign (l : List Char) : Option ℚ :=
  match l.span (fun c => c ≠ 'e' && c ≠ 'E') with
  | (mant, []) => parseMant mant
  | (mant, _ :: ex) =>
      match parseMant mant with
      | some m => parseExp m ex
      | none => none

/-- Python `float(s)` on the decimal/scientific literals the repository reads
(`inf`/`nan` and underscores are not exercised by any file format here). -/
def parseRat (s : String) : Option ℚ :=
  match (pyStrip s).data with
  | [] => none
  | '+' :: l => parseRatNoSign l
  | '-' :: l => (parseRatNoSign l).map (fun q => -q)
  | l => parseRatNoSign l

/-- Python `int(s)` on optionally signed decimal literals. -/
def parsePyInt (s : String) : Option Int :=
  match (pyStrip s).data with
  | [] => none
  | '+' :: l => if l ≠ [] && allDigits l then some ((natOfDigits l : Int)) else none
  | '-' :: l => if l ≠ [] && allDigits l then some (-(natOfDigits l : Int)) else none
  | l => if l ≠ [] && allDigits l then some ((natOfDigits l : Int)) else none

/-- A run of `n` spaces. -/
def spacesStr (n : Nat) : String := String.mk (List.replicate n ' ')

/-- Python dict update `d[k] = v` on a dict modelled as a lookup function. -/
def dset {α : Type} (d : String → Option α) (k : String) (v : α) : String → Option α :=
  fun k' => if k' = k then some v else d k'

/-- Python `l[i]` with negative-index semantics (`None` models `IndexError`). -/
def pyIndex {α : Type} (l : List α) (i : Int) : Option α :=
  if 0 ≤ i then l.get? i.toNat
  else if 0 ≤ i + l.length then l.get? (i + l.length).toNat
  else none

/-- Resolve a Python slice bound to an absolute position in `[0, n]`. -/
def pyClampIdx (n : Nat) (i : Int) : Nat :=
  if i < 0 then (i + n).toNat else min i.toNat n

/-- Python `l[a:b]` for arbitrary integer bounds. -/
def pySliceL {α : Type} (l : List α) (a b : Int) : List α :=
  (l.drop (pyClampIdx l.length a)).take (pyClampIdx l.length b - pyClampIdx l.length a)

end SACP

namespace SACP.MMCInput

/-!  ## FragPrep/AMBER/MMC_Input.py — the fixed-column molecular codec -/

/-- State of `MoleculeConverter`: three name-keyed dicts and the canonical
atom order (first-appearance order in the coordinate file). -/
structure MoleculeConverter where
  coords : String → Option (ℚ × ℚ × ℚ)
  atom_types : String → Option String
  charges : String → Option ℚ
  atom_order : List String

/-- `MoleculeConverter.__init__`: empty dicts, empty order. -/
def initConverter : MoleculeConverter :=
  ⟨fun _ => none, fun _ => none, fun _ => none, []⟩

/-- Fixed-column extraction from one `ATOM` record of the PDB file
(`int(line[6:11])`, name `line[12:16]`, floats at `[30:38]`, `[38:46]`,
`[46:54]`); a parse failure models the propagating `ValueError`. -/
def parseAtomLine (line : String) : Except String (String × ℚ × ℚ × ℚ) :=
  match parsePyInt (pySlice line 6 11) with
  | none => .error "ValueError: invalid literal for int"
  | some _ =>
    match parseRat (pySlice line 30 38), parseRat (pySlice line 38 46),
          parseRat (pySlice line 46 54) with
    | some x, some y, some z => .ok (pyStrip (pySlice line 12 16), x, y, z)
    | _, _, _ => .error "ValueError: could not convert string to float"

/-- One loop iteration of `read_pdb_file`: record the coordinates under the
atom name (overwriting any earlier record of the same name) and append the
name to the canonical order. -/
def pdbStep (c : MoleculeConverter) (r : String × ℚ × ℚ × ℚ) : MoleculeConverter :=
  { c with coords := dset c.coords r.1 r.2, atom_order := c.atom_order ++ [r.1] }

/-- `MoleculeConverter.read_pdb_file`: process every line starting with
`ATOM` in order; the first malformed record aborts with the Python error. -/
def read_pdb_file (c : MoleculeConverter) (lines : List String) :
    Except String MoleculeConverter := do
  let recs ← (lines.filter (fun l => pyStartsWith l "ATOM")).mapM parseAtomLine
  pure (recs.foldl pdbStep c)

/-- Loop of `read_prepi_file` with the `start_processing` flag threaded. -/
def prepiGo : MoleculeConverter → Bool → List String → MoleculeConverter
  | c, _, [] => c
  | c, started, line :: rest =>
    if containsSub line "CORRECT" then prepiGo c true rest
    else if started && containsSub line "LOOP" then c
    else if started && pyStrip line ≠ "" && !containsSub line "DUMM" then
      (let parts := pySplitWs (pyStrip line)
       if 8 ≤ parts.length then
         prepiGo { c with atom_types := dset c.atom_types (parts.getD 1 "") (parts.getD 2 "") }
           started rest
       else prepiGo c started rest)
    else prepiGo c started rest

/-- `MoleculeConverter.read_prepi_file`. -/
def read_prepi_file (c : MoleculeConverter) (lines : List String) : MoleculeConverter :=
  prepiGo c false lines

/-- The scan loop of `read_top_file`: returns (`charge_start`, `charge_end`)
with `none` standing for a Python variable that was never assigned.
`charge_start` is reset to `i + 2` at every line containing `%FLAG CHARGE`;
the first later line containing `%FLAG` (once the section was seen) sets
`charge_end = i` and breaks. -/
def scanFlags : List String → Nat → Option Nat → Option Nat × Option Nat
  | [], _, cstart => (cstart, none)
  | line :: rest, i, cstart =>
    if containsSub line "%FLAG CHARGE" then scanFlags rest (i + 1) (some (i + 2))
    else if cstart.isSome && containsSub line "%FLAG" then (cstart, some i)
    else scanFlags rest (i + 1) cstart

/-- `range(0, len(line.strip()), 16)` chunking of one charge data line:
16-character slices of the raw line, one per index below the stripped
length. -/
def lineChunks (line : String) : List String :=
  (List.range (((pyStrip line).length + 15) / 16)).map
    (fun k => pySlice line (16 * k) (16 * k + 16))

/-- Values extracted from one data line (`float(chunk.strip())` each). -/
def lineVals (line : String) : Option (List ℚ) :=
  (lineChunks line).mapM (fun ch => parseRat (pyStrip ch))

/-- Concatenated values of all data lines, in order. -/
def topVals (dataLines : List String) : Option (List ℚ) :=
  (dataLines.mapM lineVals).map List.flatten

/-- The unit-conversion constant 18.2223. -/
def chargeUnit : ℚ := 182223 / 10000

/-- Positional charge assignment: `for i, name in enumerate(atom_order):
if i < len(charges): self.charges[name] = charges[i]`, with the running
index made explicit. -/
def assignFrom (qs : List ℚ) : (String → Option ℚ) → Nat → List String → (String → Option ℚ)
  | d, _, [] => d
  | d, i, a :: rest =>
    assignFrom qs (match qs.get? i with | some q => dset d a q | none => d) (i + 1) rest

def assignCharges (d : String → Option ℚ) (order : List String) (qs : List ℚ) :
    String → Option ℚ :=
  assignFrom qs d 0 order

/-- `MoleculeConverter.read_top_file`.  If the `CHARGE` tag is found but no
later `%FLAG` line exists, the Python code reads the unassigned local
`charge_end` and dies with a `NameError`; that is the middle case. -/
def read_top_file (c : MoleculeConverter) (lines : List String) :
    Except String MoleculeConverter :=
  match scanFlags lines 0 none with
  | (none, _) => .ok c
  | (some _, none) => .error "NameError: name charge_end is not defined"
  | (some s, some e) =>
    match topVals ((lines.drop s).take (e - s)) with
    | none => .error "ValueError: could not convert string to float"
    | some vals =>
      .ok { c with charges := assignCharges c.charges c.atom_order
                     (vals.map (fun q => q / chargeUnit)) }

/-- Exactly five fractional digits of `m % 100000`, as Python `%.5f` emits. -/
def frac5 (m : Nat) : String :=
  String.mk [Nat.digitChar (m / 10000 % 10), Nat.digitChar (m / 1000 % 10),
    Nat.digitChar (m / 100 % 10), Nat.digitChar (m / 10 % 10), Nat.digitChar (m % 10)]

/-- Python `f"{q:7.5f}"` for `0 ≤ q`: the integer digits, a point, and five
fractional digits (the minimum width 7 never pads, because `d.ddddd` is
already 7 characters). -/
def fmtFixed5 (q : ℚ) : String :=
  Nat.repr ((round (q * 100000)).toNat / 100000) ++ "." ++
    frac5 ((round (q * 100000)).toNat % 100000)

/-- `format_num` from `format_line`: a sign-or-space character followed by
the 7-or-more character fixed-point rendering of the magnitude. -/
def format_num (q : ℚ) : String :=
  if 0 ≤ q then " " ++ fmtFixed5 q else "-" ++ fmtFixed5 (-q)

/-- `f"{atom_type:<2}"`: left-justify to minimum width 2. -/
def ljust2 (s : String) : String := s ++ spacesStr (2 - s.length)

/-- The Python `KeyError` wrapper message of `format_line` (the repr of a
`KeyError` for key `a` is `'a'` in quotes). -/
def missingMsg (a : String) : String :=
  "Missing data for atom " ++ a ++ ": '" ++ a ++ "'"

/-- `MoleculeConverter.format_line`: the three dict lookups in source order
(coords, type, charge); the first missing one raises the `KeyError`-derived
message naming the atom. -/
def format_line (c : MoleculeConverter) (atom_name : String) : Except String String :=
  match c.coords atom_name with
  | none => .error (missingMsg atom_name)
  | some xyz =>
    match c.atom_types atom_name with
    | none => .error (missingMsg atom_name)
    | some atom_type =>
      match c.charges atom_name with
      | none => .error (missingMsg atom_name)
      | some charge =>
        .ok (" " ++ ljust2 atom_type ++ "      " ++ format_num xyz.1 ++ "  " ++
          format_num xyz.2.1 ++ "  " ++ format_num xyz.2.2 ++ "  " ++ format_num charge ++
          "    1  MOL  " ++ atom_name)

/-- The write loop of `create_slv_file`, with the file content accumulated
explicitly: the returned string is the content on disk when the loop ends
or aborts (the file is opened before the loop, each line is written as it
is produced, and an exception leaves what was already written). -/
def writeLines (c : MoleculeConverter) : List String → String × Option String
  | [] => ("", none)
  | a :: rest =>
    match format_line c a with
    | .error e => ("", some e)
    | .ok l =>
      let r := writeLines c rest
      (l ++ "\n" ++ r.1, r.2)

/-- `MoleculeConverter.create_slv_file`: (content left in the output file,
error if the conversion aborted mid-write). -/
def create_slv_file (c : MoleculeConverter) : String × Option String :=
  writeLines c c.atom_order

/-- Result of `process_molecule`: success with the full file content, an
error raised before the output file was opened, or an abort that left the
already-written content behind. -/
inductive ProcResult where
  | ok (content : String)
  | earlyError (err : String)
  | writeAborted (written : String) (err : String)
deriving DecidableEq

/-- `process_molecule`: the four steps in source order; read errors occur
before the output file is opened, `create_slv_file` errors occur after. -/
def process_molecule (pdb prepi top : List String) : ProcResult :=
  match read_pdb_file initConverter pdb with
  | .error e => .earlyError e
  | .ok c1 =>
    let c2 := read_prepi_file c1 prepi
    match read_top_file c2 top with
    | .error e => .earlyError e
    | .ok c3 =>
      match create_slv_file c3 with
      | (s, none) => .ok s
      | (s, some e) => .writeAborted s e

/-- `.isOk` test for the embedded `format_line`. -/
def lineOk (e : Except String String) : Bool :=
  match e with
  | .ok _ => true
  | .error _ => false

/-- The `.ok` payload of an embedded `format_line` call (unused default). -/
def okStr (e : Except String String) : String :=
  match e with
  | .ok s => s
  | .error _ => ""

/-- Concatenation of a list of strings (the full file content as the
concatenation of its lines). -/
def concatAll (l : List String) : String := l.foldr (fun s t => s ++ t) ""

/-- The claim's shape of one numeric field: exactly 8 characters, a leading
sign-or-space character, one integer digit, the decimal point, and 5
digits after the point. -/
def numField8 (s : String) : Prop :=
  s.length = 8 ∧ (s.data.getD 0 ' ' = ' ' ∨ s.data.getD 0 ' ' = '-') ∧
  (s.data.getD 1 ' ').isDigit = true ∧ s.data.getD 2 ' ' = '.' ∧
  ∀ ch ∈ s.data.drop 3, ch.isDigit = true

/-- The serialized line layout asserted by the serialization contract:
one leading space, the atom type left-justified in a field of 8 characters
total, the four numeric fields separated by exactly two spaces, then 4
spaces, the residue index `1`, 2 spaces, the residue name `MOL`, 2 spaces,
and the atom name. -/
def c2LayoutLine (t xs ys zs qs name : String) : String :=
  " " ++ t ++ spacesStr (8 - t.length) ++ xs ++ "  " ++ ys ++ "  " ++ zs ++ "  " ++ qs ++
    "    1  MOL  " ++ name

/-- The claim's property of one emitted line for an atom of type `t` named
`name`: the line decomposes into the fixed layout with four 8-character
numeric fields. -/
def c2ClaimHolds (s t name : String) : Prop :=
  ∃ xs ys zs qs : String, numField8 xs ∧ numField8 ys ∧ numField8 zs ∧ numField8 qs ∧
    s = c2LayoutLine t xs ys zs qs name

/-- Modelled from the spec: the charge-table reading as the spec words it —
identical to `read_top_file` except that the TWO lines following the
`%FLAG CHARGE` tag are skipped, i.e. the data region starts at tag
index + 3 instead of the code's tag index + 2. -/
def read_top_file_specSkipTwo (c : MoleculeConverter) (lines : List String) :
    Except String MoleculeConverter :=
  match scanFlags lines 0 none with
  | (none, _) => .ok c
  | (some _, none) => .error "NameError: name charge_end is not defined"
  | (some s, some e) =>
    match topVals ((lines.drop (s + 1)).take (e - (s + 1))) with
    | none => .error "ValueError: could not convert string to float"
    | some vals =>
      .ok { c with charges := assignCharges c.charges c.atom_order
                     (vals.map (fun q => q / chargeUnit)) }

/-! ### Concrete inputs used by counterexamples and witnesses -/

/-- Coordinate file with atoms `A1` and `X9` (fixed PDB columns). -/
def pdbC1 : List String :=
  ["ATOM      1  A1  MOL     1       1.000   2.000   3.000  1.00",
   "ATOM      2  X9  MOL     1       4.000   5.000   6.000  1.00"]

/-- Type file assigning a type only to `A1` — no entry for `X9`. -/
def prepiC1 : List String :=
  ["This is the CORRECT section",
   "   4  A1  CT  M   3   2   1   1.540  111.208  180.000  -0.060",
   "LOOP"]

/-- Charge table with two charges (raw values `0.5 × 18.2223` twice). -/
def topC1 : List String :=
  ["%FLAG CHARGE",
   "%FORMAT(5E16.8)",
   "         9.11115         9.11115",
   "%FLAG MASS"]

/-- A converter state whose canonical order is `[A1, X9]` where `A1` has
every field and `X9` has coordinates but neither type nor charge. -/
def cC1 : MoleculeConverter :=
  { coords := fun n => if n = "A1" then some (1, 2, 3)
      else if n = "X9" then some (4, 5, 6) else none,
    atom_types := fun n => if n = "A1" then some "CT" else none,
    charges := fun n => if n = "A1" then some (1/2) else none,
    atom_order := ["A1", "X9"] }

/-- A fully populated converter whose `x` coordinate is `12.3` (two integer
digits). -/
def c2exConv : MoleculeConverter :=
  { coords := fun n => if n = "A1" then some ((123/10 : ℚ), 2, 3) else none,
    atom_types := fun n => if n = "A1" then some "CT" else none,
    charges := fun n => if n = "A1" then some (1/2 : ℚ) else none,
    atom_order := ["A1"] }

/-- The line the codec emits for `c2exConv`: the first numeric field is 9
characters wide. -/
def c2exLine : String := " CT       12.30000   2.00000   3.00000   0.50000    1  MOL  A1"

/-- A fully populated converter with every magnitude below 10 and a
2-character type. -/
def c2wConv : MoleculeConverter :=
  { coords := fun n => if n = "A1" then some ((3/2 : ℚ), -2, 0) else none,
    atom_types := fun n => if n = "A1" then some "CT" else none,
    charges := fun n => if n = "A1" then some (-1/2 : ℚ) else none,
    atom_order := ["A1"] }

/-- Charge table whose SECOND line after the tag holds a value: under the
code's single-line skip it is data, under the spec's two-line skip it would
be header. -/
def c8cexLines : List String :=
  ["%FLAG CHARGE", "HEADER LINE", "         9.11115", "%FLAG MASS"]

/-- A converter whose canonical order is just `[N1]`, with no charges yet. -/
def c8cexConv : MoleculeConverter :=
  ⟨fun _ => none, fun _ => none, fun _ => none, ["N1"]⟩

/-- The charge the code's reader assigns to an atom on `c8cexLines`. -/
def c8codeCharge (a : String) : Option ℚ :=
  match read_top_file c8cexConv c8cexLines with
  | .ok c => c.charges a
  | .error _ => none

/-- The charge the spec-worded reader assigns to an atom on `c8cexLines`. -/
def c8specCharge (a : String) : Option ℚ :=
  match read_top_file_specSkipTwo c8cexConv c8cexLines with
  | .ok c => c.charges a
  | .error _ => none

/-- A converter whose canonical order is the round-trip example's
`[N1, C1, O1]`, with no charges yet. -/
def cC8 : MoleculeConverter :=
  ⟨fun _ => none, fun _ => none, fun _ => none, ["N1", "C1", "O1"]⟩

/-- The round-trip charge data line: raw values `0.5×18.2223`,
`-0.3×18.2223`, `-0.2×18.2223` in 16-character fields. -/
def c8dataLine : String := "         9.11115        -5.46669        -3.64446"

/-- Coordinate file in which the atom name `B1` appears twice with
different coordinates (positions 1 and 3 of the canonical order). -/
def pdbC10 : List String :=
  ["ATOM      1  B1  MOL     1       1.000   2.000   3.000  1.00",
   "ATOM      2  A1  MOL     1       4.000   5.000   6.000  1.00",
   "ATOM      3  B1  MOL     1       7.000   8.000   9.000  1.00"]

/-- The parsed records of `pdbC10`. -/
def recsC10 : List (String × ℚ × ℚ × ℚ) :=
  [("B1", 1, 2, 3), ("A1", 4, 5, 6), ("B1", 7, 8, 9)]

/-- The converter state after reading `pdbC10`. -/
def cC10 : MoleculeConverter := recsC10.foldl pdbStep initConverter

/-- A fully populated converter whose order lists `B1` twice. -/
def convC10W : MoleculeConverter :=
  ⟨fun _ => some (7, 8, 9), fun _ => some "CT", fun _ => some (1/2), ["B1", "B1"]⟩

end SACP.MMCInput

namespace SACP.GaussianSubmit

/-! ## FragPrep/Gaussian/GaussianSubmit.py — tracker, selection, submission -/

/-- Observable state of one job's `mpp.log` file at scan time. -/
inductive FileState where
  | absent
  | unreadable (err : String)
  | readable (content : String)
deriving DecidableEq

/-- `check_job_completion`: completion flag and status detail. -/
def check_job_completion : FileState → Bool × String
  | .absent => (false, "No log file found")
  | .unreadable e => (false, "Error reading log: " ++ e)
  | .readable content =>
    if containsSub content "Normal termination" then (true, "Completed")
    else (false, "Incomplete or error")

/-- One entry of the `os.listdir(jobs_dir)` snapshot, with the artifact
probes `check_job_completion` and `list_job_status` perform on it. -/
structure DirEntry where
  name : String
  isDir : Bool
  hasMppCom : Bool
  log : FileState
deriving DecidableEq

/-- Python dict insertion on an insertion-ordered association list:
an existing key keeps its position and gets the new value. -/
def dinsert {α : Type} : List (String × α) → String → α → List (String × α)
  | [], k, v => [(k, v)]
  | (k', v') :: rest, k, v =>
    if k' = k then (k, v) :: rest else (k', v') :: dinsert rest k v

/-- One iteration of the scan loop of `list_job_status`: record the entry
in the `job_dirs` dict when it is an eligible job directory. -/
def scanStep (incomplete_only : Bool) (d : List (String × String)) (e : DirEntry) :
    List (String × String) :=
  if e.isDir && e.hasMppCom then
    (let cs := check_job_completion e.log
     if !incomplete_only || !cs.1 then dinsert d e.name cs.2 else d)
  else d

/-- The `job_dirs` dict built by the scan loop of `list_job_status`. -/
def jobStatusDict (entries : List DirEntry) (incomplete_only : Bool) :
    List (String × String) :=
  entries.foldl (scanStep incomplete_only) []

/-- The combined eligibility condition of `scanStep`. -/
def eligibleEntry (incomplete_only : Bool) (e : DirEntry) : Bool :=
  e.isDir && e.hasMppCom && (!incomplete_only || !(check_job_completion e.log).1)

/-- The (name, status) pair the scan records for an eligible entry. -/
def entryPair (incomplete_only : Bool) (e : DirEntry) : Option (String × String) :=
  if eligibleEntry incomplete_only e then
    some (e.name, (check_job_completion e.log).2)
  else none

/-- Python tuple comparison `(name, status) <= (name, status)`. -/
def pairLe (a b : String × String) : Bool :=
  decide (a.1 < b.1) || (decide (a.1 = b.1) && decide (a.2 ≤ b.2))

/-- `list_job_status`: the returned job-name list, i.e.
`[job for job, _ in sorted(job_dirs.items())]`. -/
def list_job_status (entries : List DirEntry) (incomplete_only : Bool) : List String :=
  ((jobStatusDict entries incomplete_only).mergeSort pairLe).map (fun p => p.1)

/-- Captured result of one external command invocation
(`returncode`, `stdout`, `stderr`). -/
structure CommandResult where
  returncode : Int
  stdout : String
  stderr : String
deriving DecidableEq

/-- `submit_job`: `(success, job_id, error)`.  On exit 0 the job id is
`stdout.strip().split()[-1]`; an empty token list raises `IndexError`,
which the `except` clause turns into a failure whose detail is `str(e)`.
On non-zero exit the failure detail is the captured stderr verbatim. -/
def submit_job (r : CommandResult) : Bool × Option String × Option String :=
  if r.returncode = 0 then
    match (pySplitWs (pyStrip r.stdout)).getLast? with
    | some t => (true, some t, none)
    | none => (false, none, some "list index out of range")
  else (false, none, some r.stderr)

/-- The `--indices` selection used identically in `GaussianSubmit.main`
and `MMC_Input.main`: `[available_jobs[i-1] for i in indices]` inside a
`try`, so one bad index fails the whole selection (`none`). -/
def select_indices (jobs : List String) : List Int → Option (List String)
  | [] => some []
  | i :: rest =>
    match pyIndex jobs (i - 1), select_indices jobs rest with
    | some j, some js => some (j :: js)
    | _, _ => none

/-- The `--number` selection used identically in `GaussianSubmit.main`
and `MMC_Input.main`: validate `start`, then slice
`available_jobs[start-1 : min(start-1+number, len)]`. -/
def select_count (jobs : List String) (number start : Int) : Option (List String) :=
  if start - 1 < 0 ∨ (jobs.length : Int) ≤ start - 1 then none
  else some (pySliceL jobs (start - 1) (min (start - 1 + number) (jobs.length : Int)))

/-- The submission loop of `GaussianSubmit.main`: each selected job is
submitted once; a success bumps the counter, a failure is appended to the
failure list.  `outcome` gives the external command's result per job. -/
def gaussianRunLoop (outcome : String → CommandResult) (selected : List String) :
    Nat × List String :=
  selected.foldl (fun acc job =>
    let r := submit_job (outcome job)
    if r.1 then (acc.1 + 1, acc.2) else (acc.1, acc.2 ++ [job])) (0, [])

end SACP.GaussianSubmit

namespace SACP.MMCSubmit

/-! ## MMC/MMC_Submit.py — molecule-directory scan and batch submission -/

/-- One entry of the `self.sacp_dir.iterdir()` snapshot. -/
structure MolDirEntry where
  name : String
  isDir : Bool
  hasProtInp : Bool
deriving DecidableEq

/-- `MMCJobSubmitter.get_molecule_directories`: append every directory
containing `prot.inp`, in iteration (discovery) order — no sorting. -/
def get_molecule_directories (entries : List MolDirEntry) : List String :=
  entries.foldl (fun acc d => if d.isDir && d.hasProtInp then acc ++ [d.name] else acc) []

/-- `MMCJobSubmitter.submit_job`: `.ok (job_id?, logged_error?)`, `.error`
models an uncaught exception.  `check=True` raises `CalledProcessError` on
non-zero exit, which is caught, logged with `e.stderr`, and yields `None`;
on exit 0 an empty stdout token list raises an uncaught `IndexError`. -/
def submit_job (scriptName : String) (r : GaussianSubmit.CommandResult) :
    Except String (Option String × Option String) :=
  if r.returncode = 0 then
    match (pySplitWs (pyStrip r.stdout)).getLast? with
    | some t => .ok (some t, none)
    | none => .error "IndexError: list index out of range"
  else .ok (none, some ("Error submitting job for " ++ scriptName ++ ": " ++ r.stderr))

end SACP.MMCSubmit

namespace SACP.AMBERPrep

/-! ## FragPrep/AMBER/AMBER_Prep.py — per-job parameter generation loop -/

/-- Success flags of the five external tool invocations one job performs,
plus the stderr of `tleap` (quoted in its failure reason). -/
structure AmberSteps where
  mol2Ok : Bool
  prepiOk : Bool
  parmchkOk : Bool
  pdbOk : Bool
  tleapOk : Bool
  tleapErr : String
deriving DecidableEq

/-- The body of the `generate_amber_params` job loop: the first failing
step yields the failure reason recorded for the job; if all five steps
succeed the job is recorded successful (`none`). -/
def amberJobOutcome (s : AmberSteps) : Option String :=
  if !s.mol2Ok then some "mol2 generation failed"
  else if !s.prepiOk then some "prepi generation failed"
  else if !s.parmchkOk then some "parmchk2 failed"
  else if !s.pdbOk then some "PDB generation failed"
  else if !s.tleapOk then some ("tleap failed:\n" ++ s.tleapErr)
  else none

/-- The `generate_amber_params` processing loop: each selected job is
appended to exactly one of (`successful`, `failed`). -/
def amberRunLoop (steps : String → AmberSteps) (selected : List String) :
    List String × List (String × String) :=
  selected.foldl (fun acc job =>
    match amberJobOutcome (steps job) with
    | none => (acc.1 ++ [job], acc.2)
    | some reason => (acc.1, acc.2 ++ [(job, reason)])) ([], [])

end SACP.AMBERPrep

namespace SACP

/-! ## Theorems -/

set_option maxRecDepth 40000

/-- Every step of a fold that increases a size measure by exactly one ends
with the measure increased by the list length. -/
theorem foldl_measure {γ α : Type} (f : γ → α → γ) (m : γ → Nat)
    (hf : ∀ acc a, m (f acc a) = m acc + 1) :
    ∀ (sel : List α) (acc : γ), m (sel.foldl f acc) = m acc + sel.length := by
  intro sel
  induction sel with
  | nil => intro acc; simp
  | cons a rest ih =>
    intro acc
    simp only [List.foldl_cons, List.length_cons, ih, hf]
    omega

/-- `pyIndex` fails exactly on indices Python rejects for both signs. -/
theorem pyIndex_eq_none {α : Type} (l : List α) (i : Int) :
    pyIndex l i = none ↔ ((l.length : Int) ≤ i ∨ i + l.length < 0) := by
  unfold pyIndex
  by_cases h0 : 0 ≤ i
  · simp only [h0, if_true, List.get?_eq_none]
    omega
  · have h0' : i < 0 := by omega
    by_cases h1 : 0 ≤ i + l.length
    · simp only [h0, if_false, h1, if_true, List.get?_eq_none]
      omega
    · simp only [h0, if_false, h1, if_false]
      constructor
      · intro _
        omega
      · intro _
        trivial

/-- Claim C7: for every valid selection that is processed, every selected
job is recorded as exactly one of success or failure, so in both the
Gaussian submission loop and the AMBER parameter-generation loop the
success count plus the failure count equals the size of the selection. -/
theorem c7_summary_counts :
    (∀ (outcome : String → GaussianSubmit.CommandResult) (sel : List String),
      (GaussianSubmit.gaussianRunLoop outcome sel).1 +
        (GaussianSubmit.gaussianRunLoop outcome sel).2.length = sel.length) ∧
    (∀ (steps : String → AMBERPrep.AmberSteps) (sel : List String),
      (AMBERPrep.amberRunLoop steps sel).1.length +
        (AMBERPrep.amberRunLoop steps sel).2.length = sel.length) := by
  constructor
  · intro outcome sel
    have h := foldl_measure
      (fun acc job =>
        let r := GaussianSubmit.submit_job (outcome job)
        if r.1 then (acc.1 + 1, acc.2) else (acc.1, acc.2 ++ [job]))
      (fun acc => acc.1 + acc.2.length)
      (by
        intro acc a
        by_cases hb : (GaussianSubmit.submit_job (outcome a)).1 <;>
          simp [hb] <;> omega)
      sel (0, [])
    simpa [GaussianSubmit.gaussianRunLoop] using h
  · intro steps sel
    have h := foldl_measure
      (fun acc job =>
        match AMBERPrep.amberJobOutcome (steps job) with
        | none => (acc.1 ++ [job], acc.2)
        | some reason => (acc.1, acc.2 ++ [(job, reason)]))
      (fun acc => acc.1.length + acc.2.length)
      (by
        intro acc a
        rcases hm : AMBERPrep.amberJobOutcome (steps a) with _ | reason <;>
          simp [hm] <;> omega)
      sel ([], [])
    simpa [AMBERPrep.amberRunLoop] using h

/-- Claim C6: a job is classified complete exactly when its log file is
present, readable, and contains the literal token `Normal termination`;
a missing log and a token-less log both classify as incomplete but carry
the distinct status details `No log file found` and `Incomplete or error`. -/
theorem c6_check_job_completion :
    (∀ f : GaussianSubmit.FileState,
      (GaussianSubmit.check_job_completion f).1 = true ↔
        ∃ content, f = GaussianSubmit.FileState.readable content ∧
          containsSub content "Normal termination" = true) ∧
    GaussianSubmit.check_job_completion .absent = (false, "No log file found") ∧
    (∀ content, containsSub content "Normal termination" = false →
      GaussianSubmit.check_job_completion (.readable content) =
        (false, "Incomplete or error")) ∧
    "No log file found" ≠ "Incomplete or error" := by
  refine ⟨?_, rfl, ?_, by decide⟩
  · intro f
    cases f with
    | absent => simp [GaussianSubmit.check_job_completion]
    | unreadable e => simp [GaussianSubmit.check_job_completion]
    | readable content =>
      rcases hb : containsSub content "Normal termination" with _ | _
      · simp only [GaussianSubmit.check_job_completion, hb, if_false, Bool.false_eq_true,
          false_iff]
        rintro ⟨c, hc, hc2⟩
        cases hc
        rw [hb] at hc2
        cases hc2
      · simp only [GaussianSubmit.check_job_completion, hb, if_true, true_iff]
        exact ⟨content, rfl, hb⟩
  · intro content hb
    simp [GaussianSubmit.check_job_completion, hb]

/-- Claim C9 fails as stated: the external command exiting zero does not
guarantee a success outcome — with an empty standard output the job-id
parse raises `IndexError` and the outcome is a failure. -/
theorem c9_counterexample :
    GaussianSubmit.submit_job ⟨0, "", ""⟩ = (false, none, some "list index out of range") ∧
    (⟨0, "", ""⟩ : GaussianSubmit.CommandResult).returncode = 0 :=
  ⟨by with_unfolding_all decide, rfl⟩

/-- Claim C9 (amended): on exit 0 with at least one whitespace-delimited
stdout token, the outcome is a success carrying the last token; on exit 0
with a token-less stdout the outcome is a failure carrying the Python
index-error text; on non-zero exit the outcome is a failure carrying the
captured stderr verbatim (in `MMC_Submit` the stderr is carried in the
logged error message and the returned job id is `None`). -/
theorem c9_amended (r : GaussianSubmit.CommandResult) (name : String) :
    (r.returncode = 0 → ∀ t, (pySplitWs (pyStrip r.stdout)).getLast? = some t →
      GaussianSubmit.submit_job r = (true, some t, none)) ∧
    (r.returncode = 0 → pySplitWs (pyStrip r.stdout) = [] →
      GaussianSubmit.submit_job r = (false, none, some "list index out of range")) ∧
    (r.returncode ≠ 0 → GaussianSubmit.submit_job r = (false, none, some r.stderr)) ∧
    (r.returncode = 0 → ∀ t, (pySplitWs (pyStrip r.stdout)).getLast? = some t →
      MMCSubmit.submit_job name r = .ok (some t, none)) ∧
    (r.returncode ≠ 0 → MMCSubmit.submit_job name r =
      .ok (none, some ("Error submitting job for " ++ name ++ ": " ++ r.stderr))) := by
  refine ⟨?_, ?_, ?_, ?_, ?_⟩
  · intro h0 t ht
    simp [GaussianSubmit.submit_job, h0, ht]
  · intro h0 he
    simp [GaussianSubmit.submit_job, h0, he]
  · intro h0
    simp [GaussianSubmit.submit_job, h0]
  · intro h0 t ht
    simp [MMCSubmit.submit_job, h0, ht]
  · intro h0
    simp [MMCSubmit.submit_job, h0]

/-- Witness for C9 (amended) at concrete command results. -/
theorem c9_witness :
    GaussianSubmit.submit_job ⟨0, "Submitted batch job 12345", ""⟩ =
      (true, some "12345", none) ∧
    GaussianSubmit.submit_job ⟨1, "", "sbatch: error: invalid partition"⟩ =
      (false, none, some "sbatch: error: invalid partition") ∧
    MMCSubmit.submit_job "batch_1_submit.sh" ⟨1, "", "boom"⟩ =
      .ok (none, some ("Error submitting job for " ++ "batch_1_submit.sh" ++ ": " ++ "boom")) :=
  ⟨(c9_amended ⟨0, "Submitted batch job 12345", ""⟩ "x").1 rfl "12345"
      (by with_unfolding_all decide),
   (c9_amended ⟨1, "", "sbatch: error: invalid partition"⟩ "x").2.2.1 (by decide),
   (c9_amended ⟨1, "", "boom"⟩ "batch_1_submit.sh").2.2.2.2 (by decide)⟩

/-- Claim C3 fails as stated: the supplied index `0` lies outside `[1, n]`
yet the selection does not fail — Python's negative indexing makes
`available_jobs[-1]` resolve to the last job. -/
theorem c3_counterexample :
    GaussianSubmit.select_indices ["jobA", "jobB"] [0] = some ["jobB"] ∧
    ¬(1 ≤ (0 : Int) ∧ (0 : Int) ≤ 2) :=
  ⟨by decide, by decide⟩

/-- Claim C3 (amended): the whole selection fails (selecting nothing)
exactly when some supplied index `i` satisfies `i > n` or `i < 1 - n`;
indices in `[1 - n, 0]` — although outside `[1, n]` — are silently resolved
by Python negative indexing instead of being rejected, and a successful
selection resolves every supplied index (none are dropped). -/
theorem c3_amended (jobs : List String) (idxs : List Int) :
    (GaussianSubmit.select_indices jobs idxs = none ↔
      ∃ i ∈ idxs, (jobs.length : Int) < i ∨ i < 1 - jobs.length) ∧
    (∀ sel, GaussianSubmit.select_indices jobs idxs = some sel →
      sel.length = idxs.length) := by
  induction idxs with
  | nil =>
    constructor
    · simp [GaussianSubmit.select_indices]
    · intro sel h
      simp only [GaussianSubmit.select_indices, Option.some.injEq] at h
      simp [← h]
  | cons i rest ih =>
    constructor
    · rcases hp : pyIndex jobs (i - 1) with _ | j
      · have hpi := (pyIndex_eq_none jobs (i - 1)).1 hp
        simp only [GaussianSubmit.select_indices, hp]
        constructor
        · intro _
          exact ⟨i, List.mem_cons_self i rest, by omega⟩
        · intro _
          trivial
      · rcases hs : GaussianSubmit.select_indices jobs rest with _ | js
        · simp only [GaussianSubmit.select_indices, hp, hs]
          constructor
          · intro _
            obtain ⟨k, hk, hP⟩ := ih.1.1 hs
            exact ⟨k, List.mem_cons_of_mem i hk, hP⟩
          · intro _
            trivial
        · simp only [GaussianSubmit.select_indices, hp, hs]
          constructor
          · intro h
            cases h
          · rintro ⟨k, hk, hP⟩
            rcases List.mem_cons.1 hk with hk | hk
            · subst hk
              have : pyIndex jobs (k - 1) = none :=
                (pyIndex_eq_none jobs (k - 1)).2 (by omega)
              rw [hp] at this
              cases this
            · have : GaussianSubmit.select_indices jobs rest = none :=
                ih.1.2 ⟨k, hk, hP⟩
              rw [hs] at this
              cases this
    · intro sel h
      rcases hp : pyIndex jobs (i - 1) with _ | j <;>
        rcases hs : GaussianSubmit.select_indices jobs rest with _ | js <;>
          simp only [GaussianSubmit.select_indices, hp, hs] at h
      all_goals cases h
      simp [ih.2 js hs]

/-- Witness for C3 (amended) at a concrete job list. -/
theorem c3_witness :
    (GaussianSubmit.select_indices ["a", "b", "c"] [4] = none ↔
      ∃ i ∈ [(4 : Int)], ((["a", "b", "c"] : List String).length : Int) < i ∨
        i < 1 - (["a", "b", "c"] : List String).length) ∧
    (["b", "a"] : List String).length = ([2, 1] : List Int).length :=
  ⟨(c3_amended ["a", "b", "c"] [4]).1,
   (c3_amended ["a", "b"] [2, 1]).2 ["b", "a"] (by decide)⟩

/-- Claim C5: count+start selection with a valid 1-based `start` selects
exactly the slice `[start-1, start-1+count)` clamped at the upper bound
(`count` is the job count, a nonnegative quantity), and a `start` outside
`[1, n]` is an error selecting nothing. -/
theorem c5_select_count (jobs : List String) (number start : Int) :
    ((1 ≤ start ∧ start ≤ (jobs.length : Int)) → 0 ≤ number →
      GaussianSubmit.select_count jobs number start =
        some ((jobs.drop (start - 1).toNat).take number.toNat)) ∧
    ((start < 1 ∨ (jobs.length : Int) < start) →
      GaussianSubmit.select_count jobs number start = none) := by
  constructor
  · rintro ⟨h1, h2⟩ hn
    unfold GaussianSubmit.select_count
    rw [if_neg (by omega : ¬(start - 1 < 0 ∨ (jobs.length : Int) ≤ start - 1))]
    congr 1
    unfold pySliceL pyClampIdx
    rw [if_neg (by omega : ¬(start - 1 < 0))]
    have hsle : (start - 1).toNat ≤ jobs.length := by omega
    rw [Nat.min_eq_left hsle]
    rcases le_or_lt (start - 1 + number) ((jobs.length : Int)) with hc | hc
    · rw [min_eq_left hc, if_neg (by omega : ¬(start - 1 + number < 0))]
      rw [Nat.min_eq_left (by omega : (start - 1 + number).toNat ≤ jobs.length)]
      congr 1
      omega
    · rw [min_eq_right hc.le, if_neg (by omega : ¬((jobs.length : Int) < 0))]
      rw [Int.toNat_natCast, Nat.min_eq_left (Nat.le_refl _)]
      rw [List.take_of_length_le (by simp [List.length_drop]),
        List.take_of_length_le (by simp [List.length_drop]; omega)]
  · intro h
    unfold GaussianSubmit.select_count
    rw [if_pos (by omega)]

/-- Witness for C5: the spec's two slice examples and one invalid start. -/
theorem c5_witness :
    GaussianSubmit.select_count ["A", "B", "C", "D", "E"] 3 2 = some ["B", "C", "D"] ∧
    GaussianSubmit.select_count ["A", "B", "C", "D", "E"] 5 4 = some ["D", "E"] ∧
    GaussianSubmit.select_count ["A", "B", "C", "D", "E"] 3 6 = none := by
  refine ⟨?_, ?_, ?_⟩
  · rw [(c5_select_count ["A", "B", "C", "D", "E"] 3 2).1 ⟨by decide, by decide⟩ (by decide)]
    decide
  · rw [(c5_select_count ["A", "B", "C", "D", "E"] 5 4).1 ⟨by decide, by decide⟩ (by decide)]
    decide
  · exact (c5_select_count ["A", "B", "C", "D", "E"] 3 6).2 (by decide)

/-- Witness for C6 at concrete inputs. -/
theorem c6_witness :
    GaussianSubmit.check_job_completion (.readable "SCF Done") =
      (false, "Incomplete or error") ∧
    (GaussianSubmit.check_job_completion
      (.readable " Normal termination of Gaussian 16")).1 = true ∧
    GaussianSubmit.check_job_completion .absent = (false, "No log file found") :=
  ⟨c6_check_job_completion.2.2.1 "SCF Done" (by decide),
   (c6_check_job_completion.1 _).2 ⟨_, rfl, by decide⟩,
   c6_check_job_completion.2.1⟩

/-- `scanStep` records exactly the pair `entryPair` describes. -/
theorem scanStep_eq (inc : Bool) (d : List (String × String)) (e : GaussianSubmit.DirEntry) :
    GaussianSubmit.scanStep inc d e =
      match GaussianSubmit.entryPair inc e with
      | some p => GaussianSubmit.dinsert d p.1 p.2
      | none => d := by
  unfold GaussianSubmit.scanStep GaussianSubmit.entryPair GaussianSubmit.eligibleEntry
  rcases hd : e.isDir <;> rcases hm : e.hasMppCom <;>
    rcases hc : (!inc || !(GaussianSubmit.check_job_completion e.log).1) <;>
      simp [hd, hm, hc]

/-- Inserting a fresh key into the dict appends it. -/
theorem dinsert_of_notMem {α : Type} (v : α) :
    ∀ (d : List (String × α)) (k : String), k ∉ d.map Prod.fst →
      GaussianSubmit.dinsert d k v = d ++ [(k, v)] := by
  intro d
  induction d with
  | nil => intro k _; rfl
  | cons p rest ih =>
    obtain ⟨k', v'⟩ := p
    intro k hk
    simp only [List.map_cons, List.mem_cons] at hk
    push_neg at hk
    have hne : ¬(k' = k) := fun h => hk.1 (h ▸ rfl)
    simp only [GaussianSubmit.dinsert, if_neg hne]
    rw [ih k hk.2]
    simp

/-- With no duplicate names, the scan dict is the eligible entries in scan
order. -/
theorem foldl_scanStep_eq (inc : Bool) :
    ∀ (es : List GaussianSubmit.DirEntry) (d : List (String × String)),
      (∀ x ∈ es, x.name ∉ d.map Prod.fst) → (es.map GaussianSubmit.DirEntry.name).Nodup →
      es.foldl (GaussianSubmit.scanStep inc) d = d ++ es.filterMap (GaussianSubmit.entryPair inc) := by
  intro es
  induction es with
  | nil => intro d _ _; simp
  | cons e rest ih =>
    intro d hd hnd
    simp only [List.map_cons, List.nodup_cons, List.mem_map] at hnd
    simp only [List.foldl_cons, scanStep_eq]
    rcases hp : GaussianSubmit.entryPair inc e with _ | p
    · simp only [hp]
      rw [ih d (fun x hx => hd x (List.mem_cons_of_mem e hx)) hnd.2]
      simp [List.filterMap_cons, hp]
    · obtain ⟨k, v⟩ := p
      have hk : k = e.name := by
        unfold GaussianSubmit.entryPair at hp
        by_cases hc : GaussianSubmit.eligibleEntry inc e = true
        · rw [if_pos hc] at hp
          cases hp
          rfl
        · rw [if_neg hc] at hp
          cases hp
      subst hk
      simp only [hp]
      have h1 : ∀ x ∈ rest, x.name ∉ (d ++ [(e.name, v)]).map Prod.fst := by
        intro x hx
        simp only [List.map_append, List.mem_append, List.map_cons, List.map_nil,
          List.mem_singleton]
        rintro (hin | hxe)
        · exact hd x (List.mem_cons_of_mem e hx) hin
        · exact hnd.1 ⟨x, hx, hxe⟩
      rw [dinsert_of_notMem v d e.name (hd e (List.mem_cons_self e rest)),
        ih (d ++ [(e.name, v)]) h1 hnd.2]
      simp [List.filterMap_cons, hp, List.append_assoc]

/-- `pairLe` is transitive. -/
theorem pairLe_trans (a b c : String × String) :
    GaussianSubmit.pairLe a b → GaussianSubmit.pairLe b c → GaussianSubmit.pairLe a c := by
  simp only [GaussianSubmit.pairLe, Bool.or_eq_true, Bool.and_eq_true, decide_eq_true_eq]
  rintro (h1 | ⟨h1, h2⟩) <;> rintro (h3 | ⟨h3, h4⟩)
  · exact Or.inl (lt_trans h1 h3)
  · exact Or.inl (h3 ▸ h1)
  · exact Or.inl (h1 ▸ h3)
  · exact Or.inr ⟨h1.trans h3, le_trans h2 h4⟩

/-- `pairLe` is total. -/
theorem pairLe_total (a b : String × String) :
    GaussianSubmit.pairLe a b || GaussianSubmit.pairLe b a := by
  simp only [GaussianSubmit.pairLe, Bool.or_eq_true, Bool.and_eq_true, decide_eq_true_eq]
  rcases lt_trichotomy a.1 b.1 with h | h | h
  · exact Or.inl (Or.inl h)
  · rcases le_total a.2 b.2 with h2 | h2
    · exact Or.inl (Or.inr ⟨h, h2⟩)
    · exact Or.inr (Or.inr ⟨h.symm, h2⟩)
  · exact Or.inr (Or.inl h)

/-- `pairLe` is antisymmetric. -/
theorem pairLe_antisymm (a b : String × String) :
    GaussianSubmit.pairLe a b → GaussianSubmit.pairLe b a → a = b := by
  simp only [GaussianSubmit.pairLe, Bool.or_eq_true, Bool.and_eq_true, decide_eq_true_eq]
  rintro (h1 | ⟨h1, h2⟩) <;> rintro (h3 | ⟨h3, h4⟩)
  · exact absurd (lt_trans h1 h3) (lt_irrefl a.1)
  · exact absurd h1 (h3 ▸ lt_irrefl a.1)
  · exact absurd h3 (h1 ▸ lt_irrefl b.1)
  · exact Prod.ext h1 (le_antisymm h2 h4)

/-- Claim C4 fails as stated: the MMC molecule-directory scan returns the
eligible directories in filesystem discovery order, not sorted — the same
unchanged tree listed in two different orders yields two different job
lists, the first of which is unsorted. -/
theorem c4_counterexample :
    MMCSubmit.get_molecule_directories
      [⟨"b", true, true⟩, ⟨"a", true, true⟩] = ["b", "a"] ∧
    MMCSubmit.get_molecule_directories
      [⟨"a", true, true⟩, ⟨"b", true, true⟩] = ["a", "b"] ∧
    ¬ List.Sorted (fun x y : String => x ≤ y) ["b", "a"] ∧
    (["b", "a"] : List String) ≠ ["a", "b"] := by
  refine ⟨rfl, rfl, ?_, by decide⟩
  intro h
  exact absurd ((List.sorted_cons.1 h).1 "a" (by simp))
    (by with_unfolding_all decide)

/-- Claim C4 (amended): the Gaussian job scan (`list_job_status`) returns
job names sorted lexicographically and, for duplicate-free listings, is
independent of the filesystem iteration order; the MMC molecule scan
(`get_molecule_directories`), however, returns eligible directories in
discovery order, unsorted. -/
theorem c4_amended :
    (∀ (entries : List GaussianSubmit.DirEntry) (inc : Bool),
      List.Sorted (fun x y : String => x ≤ y) (GaussianSubmit.list_job_status entries inc)) ∧
    (∀ (es es' : List GaussianSubmit.DirEntry) (inc : Bool), es.Perm es' →
      (es.map GaussianSubmit.DirEntry.name).Nodup →
      GaussianSubmit.list_job_status es inc = GaussianSubmit.list_job_status es' inc) ∧
    (∀ es : List MMCSubmit.MolDirEntry,
      MMCSubmit.get_molecule_directories es =
        (es.filter (fun e => e.isDir && e.hasProtInp)).map (fun e => e.name)) := by
  refine ⟨?_, ?_, ?_⟩
  · intro entries inc
    unfold GaussianSubmit.list_job_status
    have hs := List.sorted_mergeSort
      pairLe_trans pairLe_total (GaussianSubmit.jobStatusDict entries inc)
    exact List.Pairwise.map (fun p => p.1)
      (fun a b hab => by
        simp only [GaussianSubmit.pairLe, Bool.or_eq_true, Bool.and_eq_true,
          decide_eq_true_eq] at hab
        rcases hab with h | ⟨h, _⟩
        · exact le_of_lt h
        · exact le_of_eq h) hs
  · intro es es' inc hperm hnd
    unfold GaussianSubmit.list_job_status GaussianSubmit.jobStatusDict
    have hnd' : (es'.map GaussianSubmit.DirEntry.name).Nodup :=
      (hperm.map GaussianSubmit.DirEntry.name).nodup_iff.1 hnd
    rw [foldl_scanStep_eq inc es [] (by simp) hnd,
      foldl_scanStep_eq inc es' [] (by simp) hnd']
    simp only [List.nil_append]
    congr 1
    letI : IsAntisymm (String × String) (fun a b => GaussianSubmit.pairLe a b = true) :=
      ⟨pairLe_antisymm⟩
    refine List.eq_of_perm_of_sorted
      (r := fun a b => GaussianSubmit.pairLe a b = true) ?_ ?_ ?_
    · exact (List.mergeSort_perm _ _).trans
        ((hperm.filterMap (GaussianSubmit.entryPair inc)).trans
          (List.mergeSort_perm _ _).symm)
    · exact List.sorted_mergeSort pairLe_trans pairLe_total _
    · exact List.sorted_mergeSort pairLe_trans pairLe_total _
  · intro es
    unfold MMCSubmit.get_molecule_directories
    have : ∀ (l : List MMCSubmit.MolDirEntry) (acc : List String),
        l.foldl (fun acc d => if d.isDir && d.hasProtInp then acc ++ [d.name] else acc) acc =
          acc ++ (l.filter (fun e => e.isDir && e.hasProtInp)).map (fun e => e.name) := by
      intro l
      induction l with
      | nil => intro acc; simp
      | cons e rest ih =>
        intro acc
        by_cases hc : (e.isDir && e.hasProtInp) = true
        · simp only [List.foldl_cons]
          rw [if_pos hc, ih, List.filter_cons, if_pos hc]
          simp
        · simp only [List.foldl_cons]
          rw [if_neg hc, ih, List.filter_cons, if_neg hc]
    simpa using this es []

/-- `format_line` raises the `KeyError`-derived message naming the atom
whenever the type or the charge of the atom is missing. -/
theorem format_line_missing (c : MMCInput.MoleculeConverter) (a : String)
    (h : c.atom_types a = none ∨ c.charges a = none) :
    MMCInput.format_line c a = .error (MMCInput.missingMsg a) := by
  rcases hco : c.coords a with _ | xyz
  · simp [MMCInput.format_line, hco]
  · rcases hty : c.atom_types a with _ | t
    · simp [MMCInput.format_line, hco, hty]
    · rcases h with h | h
      · rw [hty] at h
        cases h
      · simp [MMCInput.format_line, hco, hty, h]

/-- The write loop emits the formatted lines of a good head segment, then
aborts at the first failing atom, leaving exactly the head segment's lines
in the file. -/
theorem writeLines_split (c : MMCInput.MoleculeConverter) (a m : String)
    (suf : List String) (ha : MMCInput.format_line c a = .error m) :
    ∀ pre : List String, (∀ b ∈ pre, MMCInput.lineOk (MMCInput.format_line c b) = true) →
      MMCInput.writeLines c (pre ++ a :: suf) =
        (MMCInput.concatAll (pre.map (fun b => MMCInput.okStr (MMCInput.format_line c b) ++ "\n")),
          some m) := by
  intro pre
  induction pre with
  | nil =>
    intro _
    simp [MMCInput.writeLines, ha, MMCInput.concatAll]
  | cons b pre ih =>
    intro hp
    have hb := hp b (List.mem_cons_self b pre)
    rcases hf : MMCInput.format_line c b with m' | l
    · rw [hf] at hb
      simp [MMCInput.lineOk] at hb
    · simp only [List.cons_append, MMCInput.writeLines, hf]
      simp only [List.append_eq]
      rw [ih (fun x hx => hp x (List.mem_cons_of_mem b hx))]
      simp [MMCInput.concatAll, MMCInput.okStr, hf, String.append_assoc]

/-- Claim C1 fails as stated: the conversion does abort with an error
naming the missing atom `X9`, but the output file is not written via a
single-flush buffer — the line for the preceding atom `A1` is already
committed when the abort happens. -/
theorem c1_counterexample :
    MMCInput.process_molecule MMCInput.pdbC1 MMCInput.prepiC1 MMCInput.topC1 =
      MMCInput.ProcResult.writeAborted
        " CT       1.00000   2.00000   3.00000   0.50000    1  MOL  A1\n"
        "Missing data for atom X9: 'X9'" ∧
    " CT       1.00000   2.00000   3.00000   0.50000    1  MOL  A1\n" ≠ "" :=
  ⟨by with_unfolding_all decide, by decide⟩

/-- Claim C1 (amended): if some atom of the canonical order has no type or
no charge assignment, the conversion for that molecule aborts at the first
such atom with an error naming it; the output file then holds exactly the
lines of the atoms preceding it (the file is written line by line, so
those lines remain committed — there is no single-flush in-memory
buffer). -/
theorem c1_amended (c : MMCInput.MoleculeConverter) (pre : List String) (a : String)
    (suf : List String) (horder : c.atom_order = pre ++ a :: suf)
    (hpre : ∀ b ∈ pre, MMCInput.lineOk (MMCInput.format_line c b) = true)
    (hmiss : c.atom_types a = none ∨ c.charges a = none) :
    MMCInput.create_slv_file c =
      (MMCInput.concatAll (pre.map (fun b => MMCInput.okStr (MMCInput.format_line c b) ++ "\n")),
        some (MMCInput.missingMsg a)) := by
  rw [MMCInput.create_slv_file, horder]
  exact writeLines_split c a (MMCInput.missingMsg a) suf
    (format_line_missing c a hmiss) pre hpre

/-- Witness for C1 (amended): on the converter `cC1` (order `[A1, X9]`,
`X9` lacking type and charge) the conversion aborts naming `X9` with the
`A1` line already committed. -/
theorem c1_witness :
    MMCInput.cC1.atom_order = ["A1"] ++ "X9" :: [] ∧
    (∀ b ∈ (["A1"] : List String), MMCInput.lineOk (MMCInput.format_line MMCInput.cC1 b) = true) ∧
    MMCInput.cC1.atom_types "X9" = none ∧
    MMCInput.create_slv_file MMCInput.cC1 =
      (MMCInput.concatAll
        ((["A1"] : List String).map
          (fun b => MMCInput.okStr (MMCInput.format_line MMCInput.cC1 b) ++ "\n")),
        some (MMCInput.missingMsg "X9")) ∧
    MMCInput.concatAll
        ((["A1"] : List String).map
          (fun b => MMCInput.okStr (MMCInput.format_line MMCInput.cC1 b) ++ "\n")) ≠ "" := by
  refine ⟨rfl, by with_unfolding_all decide, by decide, ?_, by with_unfolding_all decide⟩
  exact c1_amended MMCInput.cC1 ["A1"] "X9" [] rfl
    (by with_unfolding_all decide) (Or.inl (by decide))

/-- A string containing a longer pattern contains the pattern's head part. -/
theorem subAux_mono (p q : List Char) :
    ∀ l, subAux (p ++ q) l = true → subAux p l = true := by
  intro l
  induction l with
  | nil =>
    intro h
    simp only [subAux, List.isPrefixOf_iff_prefix] at h ⊢
    exact (List.prefix_append p q).trans h
  | cons c rest ih =>
    intro h
    simp only [subAux, Bool.or_eq_true] at h ⊢
    rcases h with h | h
    · left
      rw [List.isPrefixOf_iff_prefix] at h ⊢
      exact (List.prefix_append p q).trans h
    · right
      exact ih h

/-- A line free of `%FLAG` is also free of `%FLAG CHARGE`. -/
theorem containsSub_flag (l : String) (h : containsSub l "%FLAG" = false) :
    containsSub l "%FLAG CHARGE" = false := by
  cases hC : containsSub l "%FLAG CHARGE"
  · rfl
  · exfalso
    have hd : ("%FLAG CHARGE").data = ("%FLAG").data ++ (" CHARGE").data := by decide
    unfold containsSub at hC h
    rw [hd] at hC
    rw [subAux_mono _ _ _ hC] at h
    cases h

/-- The `read_top_file` scan, started after the tag with `charge_start`
recorded, runs through `%FLAG`-free data lines and stops at the first
terminator line containing `%FLAG`. -/
theorem scanFlags_data (t : String) (rest : List String)
    (ht1 : containsSub t "%FLAG CHARGE" = false)
    (ht2 : containsSub t "%FLAG" = true) :
    ∀ (ds : List String) (i cs : Nat),
      (∀ d ∈ ds, containsSub d "%FLAG" = false) →
      MMCInput.scanFlags (ds ++ t :: rest) i (some cs) = (some cs, some (i + ds.length)) := by
  intro ds
  induction ds with
  | nil =>
    intro i cs _
    simp [MMCInput.scanFlags, ht1, ht2]
  | cons d ds ih =>
    intro i cs hds
    have hd := hds d (List.mem_cons_self d ds)
    have hdC : containsSub d "%FLAG CHARGE" = false := containsSub_flag d hd
    simp only [List.cons_append, MMCInput.scanFlags, hdC, hd, Bool.false_eq_true, if_false,
      Option.isSome_some, Bool.true_and, Bool.and_false]
    simp only [List.append_eq]
    rw [ih (i + 1) cs (fun x hx => hds x (List.mem_cons_of_mem d hx))]
    have harith : i + 1 + ds.length = i + (d :: ds).length := by
      simp [List.length_cons]
      omega
    rw [harith]

/-- Claim C8 fails as stated: the codec skips only ONE line after the
`%FLAG CHARGE` tag, so a value standing on the second line after the tag
is read as a charge, while the spec-worded reader (skipping two lines)
would find no charge at all. -/
theorem c8_counterexample :
    MMCInput.c8codeCharge "N1" = some (1/2) ∧ MMCInput.c8specCharge "N1" = none :=
  ⟨by with_unfolding_all decide, by with_unfolding_all decide⟩

/-- Claim C8 (amended): the codec skips exactly one header line after the
`%FLAG CHARGE` tag (data begins on the second line after the tag), reads
16-character fixed-width fields until the next `%FLAG` line, divides each
value by 18.2223, and assigns the results positionally into the canonical
atom order. -/
theorem c8_amended (c : MMCInput.MoleculeConverter) (hdr : String) (ds : List String)
    (t : String) (rest : List String) (vals : List ℚ)
    (hhdr : containsSub hdr "%FLAG" = false)
    (hds : ∀ d ∈ ds, containsSub d "%FLAG" = false)
    (ht1 : containsSub t "%FLAG CHARGE" = false)
    (ht2 : containsSub t "%FLAG" = true)
    (hvals : MMCInput.topVals ds = some vals) :
    MMCInput.read_top_file c ("%FLAG CHARGE" :: hdr :: (ds ++ t :: rest)) =
      .ok { c with
        charges := MMCInput.assignCharges c.charges c.atom_order
          (vals.map (fun q => q / MMCInput.chargeUnit)) } := by
  have h1 : containsSub "%FLAG CHARGE" "%FLAG CHARGE" = true := by decide
  have hhdrC : containsSub hdr "%FLAG CHARGE" = false := containsSub_flag hdr hhdr
  have hscan : MMCInput.scanFlags ("%FLAG CHARGE" :: hdr :: (ds ++ t :: rest)) 0 none =
      (some 2, some (2 + ds.length)) := by
    simp only [MMCInput.scanFlags, h1, if_true, hhdrC, hhdr, Bool.false_eq_true, if_false,
      Option.isSome_some, Bool.true_and, Bool.and_false]
    exact scanFlags_data t rest ht1 ht2 ds 2 2 hds
  unfold MMCInput.read_top_file
  rw [hscan]
  dsimp only
  have hdata :
      ((("%FLAG CHARGE" :: hdr :: (ds ++ t :: rest)).drop 2).take (2 + ds.length - 2)) = ds := by
    have h2 : 2 + ds.length - 2 = ds.length := by omega
    simp only [List.drop_succ_cons, List.drop_zero, h2]
    exact List.take_left ds (t :: rest)
  rw [hdata, hvals]

/-- An `Option` known to be `some` equals `some` of its `getD`. -/
theorem getD_of_isSome {α : Type} (o : Option α) (d : α) (h : o.isSome = true) :
    o = some (o.getD d) := by
  cases o
  · cases h
  · rfl

/-- Witness for C8 (amended): the spec's round-trip charge table, read on
the canonical order `[N1, C1, O1]`, yields charges `0.5`, `-0.3`, `-0.2`. -/
theorem c8_witness :
    MMCInput.read_top_file MMCInput.cC8
        ("%FLAG CHARGE" :: "%FORMAT(5E16.8)" :: ([MMCInput.c8dataLine] ++ "%FLAG MASS" :: [])) =
      .ok { MMCInput.cC8 with
        charges := MMCInput.assignCharges MMCInput.cC8.charges MMCInput.cC8.atom_order
          (((MMCInput.topVals [MMCInput.c8dataLine]).getD []).map
            (fun q => q / MMCInput.chargeUnit)) } ∧
    MMCInput.assignCharges MMCInput.cC8.charges MMCInput.cC8.atom_order
        (((MMCInput.topVals [MMCInput.c8dataLine]).getD []).map
          (fun q => q / MMCInput.chargeUnit)) "N1" = some (1/2) ∧
    MMCInput.assignCharges MMCInput.cC8.charges MMCInput.cC8.atom_order
        (((MMCInput.topVals [MMCInput.c8dataLine]).getD []).map
          (fun q => q / MMCInput.chargeUnit)) "C1" = some (-3/10) ∧
    MMCInput.assignCharges MMCInput.cC8.charges MMCInput.cC8.atom_order
        (((MMCInput.topVals [MMCInput.c8dataLine]).getD []).map
          (fun q => q / MMCInput.chargeUnit)) "O1" = some (-1/5) := by
  refine ⟨?_, by with_unfolding_all decide, by with_unfolding_all decide,
    by with_unfolding_all decide⟩
  exact c8_amended MMCInput.cC8 "%FORMAT(5E16.8)" [MMCInput.c8dataLine] "%FLAG MASS" []
    ((MMCInput.topVals [MMCInput.c8dataLine]).getD [])
    (by decide) (by decide) (by decide) (by decide)
    (getD_of_isSome _ [] (by with_unfolding_all decide))

/-- `find?` over a list extended on the right. -/
theorem find?_append_right {α : Type} (p : α → Bool) :
    ∀ (l : List α) (r : α),
      (l ++ [r]).find? p =
        match l.find? p with
        | some x => some x
        | none => if p r then some r else none := by
  intro l r
  induction l with
  | nil =>
    rcases h : p r with _ | _ <;> simp [h]
  | cons a l ih =>
    rcases h : p a with _ | _
    · rw [List.cons_append, List.find?_cons_of_neg _ (by simp [h]),
        List.find?_cons_of_neg _ (by simp [h]), ih]
    · rw [List.cons_append, List.find?_cons_of_pos _ (by simp [h]),
        List.find?_cons_of_pos _ (by simp [h])]

/-- The canonical order after the coordinate fold: one entry per record. -/
theorem foldl_pdbStep_order :
    ∀ (recs : List (String × ℚ × ℚ × ℚ)) (c : MMCInput.MoleculeConverter),
      ((recs.foldl MMCInput.pdbStep c).atom_order) = c.atom_order ++ recs.map (fun r => r.1) := by
  intro recs
  induction recs with
  | nil => intro c; simp
  | cons r rest ih =>
    intro c
    simp [List.foldl_cons, ih, MMCInput.pdbStep, List.append_assoc]

/-- The coordinate dict after the fold holds, for each name, the
coordinates of the LAST record carrying that name. -/
theorem foldl_pdbStep_coords :
    ∀ (recs : List (String × ℚ × ℚ × ℚ)) (c : MMCInput.MoleculeConverter) (a : String),
      ((recs.foldl MMCInput.pdbStep c).coords) a =
        match recs.reverse.find? (fun r => r.1 == a) with
        | some r => some r.2
        | none => c.coords a := by
  intro recs
  induction recs with
  | nil => intro c a; simp
  | cons r rest ih =>
    intro c a
    simp only [List.foldl_cons, ih, List.reverse_cons]
    rw [find?_append_right]
    rcases hf : rest.reverse.find? (fun x => x.1 == a) with _ | x
    · rw [hf]
      dsimp only
      simp only [MMCInput.pdbStep, dset]
      by_cases he : a = r.1
      · subst he
        simp
      · have hne : (r.1 == a) = false := beq_eq_false_iff_ne.2 (fun h => he h.symm)
        simp [he, hne]
    · rw [hf]

/-- A name not occurring in the remaining order keeps its charge. -/
theorem assignFrom_not_mem (qs : List ℚ) :
    ∀ (order : List String) (d : String → Option ℚ) (i : Nat) (a : String),
      a ∉ order → MMCInput.assignFrom qs d i order a = d a := by
  intro order
  induction order with
  | nil => intro d i a _; rfl
  | cons b rest ih =>
    intro d i a ha
    simp only [List.mem_cons, not_or] at ha
    simp only [MMCInput.assignFrom]
    rw [ih _ (i + 1) a ha.2]
    rcases hq : qs.get? i with _ | q <;> simp [hq, dset, ha.1]

/-- The charge written for a name is the one at its LAST position in the
order (when that position is covered by the charge list). -/
theorem assignFrom_last (qs : List ℚ) :
    ∀ (pre : List String) (a : String) (suf : List String) (d : String → Option ℚ) (i : Nat),
      a ∉ suf → i + pre.length < qs.length →
      MMCInput.assignFrom qs d i (pre ++ a :: suf) a = qs.get? (i + pre.length) := by
  intro pre
  induction pre with
  | nil =>
    intro a suf d i hsuf hlen
    simp only [List.nil_append, MMCInput.assignFrom]
    rcases hq : qs.get? i with _ | q
    · rw [List.get?_eq_none] at hq
      simp only [List.length_nil] at hlen
      omega
    · rw [assignFrom_not_mem qs suf _ (i + 1) a hsuf]
      simp only [dset, if_pos rfl, List.length_nil, Nat.add_zero]
      exact hq.symm
  | cons b pre ih =>
    intro a suf d i hsuf hlen
    simp only [List.cons_append, MMCInput.assignFrom, List.append_eq]
    rw [ih a suf _ (i + 1) hsuf (by simp only [List.length_cons] at hlen ⊢; omega)]
    congr 1
    simp only [List.length_cons]
    omega

/-- When every atom formats, the write loop emits one line per order
entry — the line depending only on the atom name — and commits them all
with no error. -/
theorem writeLines_all_ok (c : MMCInput.MoleculeConverter) :
    ∀ order : List String,
      (∀ b ∈ order, MMCInput.lineOk (MMCInput.format_line c b) = true) →
      MMCInput.writeLines c order =
        (MMCInput.concatAll (order.map (fun b => MMCInput.okStr (MMCInput.format_line c b) ++ "\n")),
          none) := by
  intro order
  induction order with
  | nil => intro _; rfl
  | cons b rest ih =>
    intro h
    have hb := h b (List.mem_cons_self b rest)
    rcases hf : MMCInput.format_line c b with m | l
    · rw [hf] at hb
      simp [MMCInput.lineOk] at hb
    · simp only [MMCInput.writeLines, hf]
      rw [ih (fun x hx => h x (List.mem_cons_of_mem b hx))]
      simp [MMCInput.concatAll, MMCInput.okStr, hf]

/-- Claim C10: atom-name uniqueness is never validated — a duplicated name
is appended to the canonical order once per occurrence, the coordinate
dict keeps the last occurrence's coordinates, the positional charge
assignment keeps the charge of the name's highest position, and the
writer emits for every occurrence of a name the same dict-derived line. -/
theorem c10_duplicate_names (lines : List String) (recs : List (String × ℚ × ℚ × ℚ))
    (c : MMCInput.MoleculeConverter)
    (hparse : (lines.filter (fun l => pyStartsWith l "ATOM")).mapM MMCInput.parseAtomLine =
      Except.ok recs)
    (hread : MMCInput.read_pdb_file MMCInput.initConverter lines = Except.ok c) :
    c.atom_order = recs.map (fun r => r.1) ∧
    (∀ a, c.coords a =
      (match recs.reverse.find? (fun r => r.1 == a) with
        | some r => some r.2
        | none => none)) ∧
    (∀ (d : String → Option ℚ) (qs : List ℚ) (pre : List String) (a : String)
        (suf : List String),
      c.atom_order = pre ++ a :: suf → a ∉ suf → pre.length < qs.length →
      MMCInput.assignCharges d c.atom_order qs a = qs.get? pre.length) ∧
    (∀ conv : MMCInput.MoleculeConverter,
      (∀ b ∈ conv.atom_order, MMCInput.lineOk (MMCInput.format_line conv b) = true) →
      MMCInput.create_slv_file conv =
        (MMCInput.concatAll (conv.atom_order.map
          (fun b => MMCInput.okStr (MMCInput.format_line conv b) ++ "\n")), none)) := by
  have hc : c = recs.foldl MMCInput.pdbStep MMCInput.initConverter := by
    unfold MMCInput.read_pdb_file at hread
    rw [hparse] at hread
    simp only [bind, Except.bind, pure, Except.pure] at hread
    exact (Except.ok.inj hread).symm
  subst hc
  refine ⟨?_, ?_, ?_, ?_⟩
  · rw [foldl_pdbStep_order]
    simp [MMCInput.initConverter]
  · intro a
    rw [foldl_pdbStep_coords]
    rcases hf : recs.reverse.find? (fun r => r.1 == a) with _ | x <;>
      simp [hf, MMCInput.initConverter]
  · intro d qs pre a suf horder hsuf hlen
    unfold MMCInput.assignCharges
    rw [horder]
    rw [assignFrom_last qs pre a suf d 0 hsuf (by omega)]
    simp
  · intro conv h
    unfold MMCInput.create_slv_file
    exact writeLines_all_ok conv conv.atom_order h

/-- Witness for C10 on `pdbC10`, where `B1` occurs at positions 1 and 3:
the order lists it twice, its coordinates are the third record's, and its
assigned charge is the one at position 3. -/
theorem c10_witness :
    ((MMCInput.pdbC10.filter (fun l => pyStartsWith l "ATOM")).mapM MMCInput.parseAtomLine =
      Except.ok MMCInput.recsC10) ∧
    (MMCInput.read_pdb_file MMCInput.initConverter MMCInput.pdbC10 = Except.ok MMCInput.cC10) ∧
    MMCInput.cC10.atom_order = ["B1", "A1", "B1"] ∧
    MMCInput.cC10.coords "B1" = some (7, 8, 9) ∧
    MMCInput.assignCharges (fun _ => none) MMCInput.cC10.atom_order
      [(1/10 : ℚ), 2/10, 3/10] "B1" = some (3/10) ∧
    MMCInput.create_slv_file MMCInput.convC10W =
      (MMCInput.concatAll (MMCInput.convC10W.atom_order.map
        (fun b => MMCInput.okStr (MMCInput.format_line MMCInput.convC10W b) ++ "\n")), none) := by
  have h := c10_duplicate_names MMCInput.pdbC10 MMCInput.recsC10 MMCInput.cC10
    (by with_unfolding_all rfl) (by with_unfolding_all rfl)
  refine ⟨by with_unfolding_all rfl, by with_unfolding_all rfl, ?_, ?_, ?_, ?_⟩
  · rw [h.1]
    with_unfolding_all decide
  · rw [h.2.1 "B1"]
    with_unfolding_all decide
  · refine (h.2.2.1 (fun _ => none) [(1/10 : ℚ), 2/10, 3/10] ["B1", "A1"] "B1" []
      (by with_unfolding_all decide) (by decide) (by decide)).trans ?_
    with_unfolding_all decide
  · exact h.2.2.2 MMCInput.convC10W (by with_unfolding_all decide)

/-- Character data of a space run. -/
theorem spacesStr_data (n : Nat) : (spacesStr n).data = List.replicate n ' ' := rfl

/-- Length of a space run. -/
theorem spacesStr_length (n : Nat) : (spacesStr n).length = n := by
  simp [spacesStr]

/-- A single decimal digit renders as its one digit character. -/
theorem repr_single_digit : ∀ d : Nat, d < 10 → Nat.repr d = String.mk [Nat.digitChar d] := by
  decide

/-- Digit characters of digits are decimal digits. -/
theorem digitChar_isDigit : ∀ d : Nat, d < 10 → (Nat.digitChar d).isDigit = true := by
  decide

/-- The character data of the fixed-point rendering when the magnitude has
a single integer digit. -/
theorem fmtFixed5_data (q : ℚ) (hb : (round (q * 100000)).toNat < 1000000) :
    (MMCInput.fmtFixed5 q).data =
      Nat.digitChar ((round (q * 100000)).toNat / 100000) :: '.' ::
        (MMCInput.frac5 ((round (q * 100000)).toNat % 100000)).data := by
  unfold MMCInput.fmtFixed5
  rw [repr_single_digit _ (by omega)]
  have hdot : ("." : String).data = ['.'] := by decide
  simp [String.data_append, hdot]

/-- Whenever the rounded magnitude stays below 10, `format_num` emits an
8-character field: sign-or-space, one integer digit, the point, and five
digits. -/
theorem numField8_format_num (q : ℚ) (hb : round (|q| * 100000) < 1000000) :
    MMCInput.numField8 (MMCInput.format_num q) := by
  have hnn : (0 : ℤ) ≤ round (|q| * 100000) := by
    rw [round_eq]
    refine Int.le_floor.2 ?_
    push_cast
    positivity
  by_cases hq : 0 ≤ q
  · have habs : |q| = q := abs_of_nonneg hq
    rw [habs] at hb hnn
    have hmlt : (round (q * 100000)).toNat < 1000000 := by omega
    have hsp : (" " : String).data = [' '] := by decide
    have hdata : (MMCInput.format_num q).data =
        ' ' :: Nat.digitChar ((round (q * 100000)).toNat / 100000) :: '.' ::
          (MMCInput.frac5 ((round (q * 100000)).toNat % 100000)).data := by
      rw [MMCInput.format_num, if_pos hq]
      simp [String.data_append, fmtFixed5_data q hmlt, hsp]
    refine ⟨?_, Or.inl ?_, ?_, ?_, ?_⟩
    · show (MMCInput.format_num q).data.length = 8
      rw [hdata]
      simp [MMCInput.frac5]
    · rw [hdata]
      rfl
    · rw [hdata]
      exact digitChar_isDigit _ (by omega)
    · rw [hdata]
      rfl
    · rw [hdata]
      intro ch hch
      simp only [List.drop_succ_cons, List.drop_zero, MMCInput.frac5, List.mem_cons,
        List.not_mem_nil, or_false] at hch
      rcases hch with h | h | h | h | h <;> rw [h] <;>
        exact digitChar_isDigit _ (Nat.mod_lt _ (by omega))
  · have hq' : q < 0 := lt_of_not_le hq
    have habs : |q| = -q := abs_of_neg hq'
    rw [habs] at hb hnn
    have hmlt : (round (-q * 100000)).toNat < 1000000 := by omega
    have hsp : ("-" : String).data = ['-'] := by decide
    have hdata : (MMCInput.format_num q).data =
        '-' :: Nat.digitChar ((round (-q * 100000)).toNat / 100000) :: '.' ::
          (MMCInput.frac5 ((round (-q * 100000)).toNat % 100000)).data := by
      rw [MMCInput.format_num, if_neg hq]
      simp [String.data_append, fmtFixed5_data (-q) hmlt, hsp]
    refine ⟨?_, Or.inr ?_, ?_, ?_, ?_⟩
    · show (MMCInput.format_num q).data.length = 8
      rw [hdata]
      simp [MMCInput.frac5]
    · rw [hdata]
      rfl
    · rw [hdata]
      exact digitChar_isDigit _ (by omega)
    · rw [hdata]
      rfl
    · rw [hdata]
      intro ch hch
      simp only [List.drop_succ_cons, List.drop_zero, MMCInput.frac5, List.mem_cons,
        List.not_mem_nil, or_false] at hch
      rcases hch with h | h | h | h | h <;> rw [h] <;>
        exact digitChar_isDigit _ (Nat.mod_lt _ (by omega))

/-- Claim C2 fails as stated: with coordinate `12.3` the first numeric
field is 9 characters wide, so the emitted line does not decompose into
the claimed fixed layout with four 8-character numeric fields. -/
theorem c2_counterexample :
    MMCInput.format_line MMCInput.c2exConv "A1" = .ok MMCInput.c2exLine ∧
    ¬ MMCInput.c2ClaimHolds MMCInput.c2exLine "CT" "A1" := by
  constructor
  · with_unfolding_all rfl
  · rintro ⟨xs, ys, zs, qs, hx, hy, hz, hq, heq⟩
    have h62 : MMCInput.c2exLine.length = 62 := by decide
    have hL := congrArg String.length heq
    rw [h62] at hL
    have e1 : (" " : String).length = 1 := by decide
    have e2 : ("CT" : String).length = 2 := by decide
    have e3 : ("  " : String).length = 2 := by decide
    have e4 : ("    1  MOL  " : String).length = 12 := by decide
    have e5 : ("A1" : String).length = 2 := by decide
    simp only [MMCInput.c2LayoutLine, String.length_append, spacesStr_length,
      hx.1, hy.1, hz.1, hq.1, e1, e2, e3, e4, e5] at hL
    omega

/-- Claim C2 (amended): for every atom whose type is at most 2 characters
and whose coordinates and charge all round to magnitude below 10 at five
decimals, the emitted line is exactly the claimed fixed-column layout —
leading space, type left-justified in 8 columns, four 8-character numeric
fields (sign-or-space, one digit, point, five digits) separated by two
spaces, then the residue columns and the atom name.  A longer type or a
magnitude of 10 or more widens its field beyond the claimed 8 columns. -/
theorem c2_amended (c : MMCInput.MoleculeConverter) (a t : String) (x y z q : ℚ)
    (hc : c.coords a = some (x, y, z)) (ht : c.atom_types a = some t)
    (hch : c.charges a = some q) (htlen : t.length ≤ 2)
    (hx : round (|x| * 100000) < 1000000) (hy : round (|y| * 100000) < 1000000)
    (hz : round (|z| * 100000) < 1000000) (hw : round (|q| * 100000) < 1000000) :
    MMCInput.format_line c a =
      .ok (MMCInput.c2LayoutLine t (MMCInput.format_num x) (MMCInput.format_num y)
        (MMCInput.format_num z) (MMCInput.format_num q) a) ∧
    MMCInput.numField8 (MMCInput.format_num x) ∧
    MMCInput.numField8 (MMCInput.format_num y) ∧
    MMCInput.numField8 (MMCInput.format_num z) ∧
    MMCInput.numField8 (MMCInput.format_num q) := by
  refine ⟨?_, numField8_format_num x hx, numField8_format_num y hy,
    numField8_format_num z hz, numField8_format_num q hw⟩
  simp only [MMCInput.format_line, hc, ht, hch]
  congr 1
  apply String.ext
  have h6 : ("      " : String).data = List.replicate 6 ' ' := by decide
  simp only [MMCInput.c2LayoutLine, MMCInput.ljust2, String.data_append, spacesStr_data,
    h6, List.append_assoc]
  have hlen8 : 8 - t.length = (2 - t.length) + 6 := by omega
  rw [hlen8, List.replicate_add]
  simp [List.append_assoc]

/-- Witness for C2 (amended) on `c2wConv` (type `CT`, values `1.5`, `-2`,
`0`, `-0.5`). -/
theorem c2_witness :
    MMCInput.c2wConv.coords "A1" = some ((3/2 : ℚ), -2, 0) ∧
    MMCInput.c2wConv.atom_types "A1" = some "CT" ∧
    MMCInput.c2wConv.charges "A1" = some (-1/2 : ℚ) ∧
    ("CT" : String).length ≤ 2 ∧
    round (|(3/2 : ℚ)| * 100000) < 1000000 ∧
    MMCInput.format_line MMCInput.c2wConv "A1" =
      .ok (MMCInput.c2LayoutLine "CT" (MMCInput.format_num (3/2)) (MMCInput.format_num (-2))
        (MMCInput.format_num 0) (MMCInput.format_num (-1/2)) "A1") ∧
    MMCInput.numField8 (MMCInput.format_num ((3/2 : ℚ))) ∧
    MMCInput.c2LayoutLine "CT" (MMCInput.format_num ((3/2 : ℚ))) (MMCInput.format_num (-2))
        (MMCInput.format_num 0) (MMCInput.format_num (-1/2)) "A1" =
      " CT       1.50000  -2.00000   0.00000  -0.50000    1  MOL  A1" := by
  have h := c2_amended MMCInput.c2wConv "A1" "CT" (3/2) (-2) 0 (-1/2)
    (by with_unfolding_all decide) (by decide) (by with_unfolding_all decide) (by decide)
    (by with_unfolding_all decide) (by with_unfolding_all decide)
    (by with_unfolding_all decide) (by with_unfolding_all decide)
  exact ⟨by with_unfolding_all decide, by decide, by with_unfolding_all decide, by decide,
    by with_unfolding_all decide, h.1, h.2.1, by with_unfolding_all decide⟩

/-- Witness for C4 (amended): a concrete sorted Gaussian listing. -/
theorem c4_witness :
    GaussianSubmit.list_job_status
      [⟨"b", true, true, .absent⟩, ⟨"a", true, true, .absent⟩] true =
    GaussianSubmit.list_job_status
      [⟨"a", true, true, .absent⟩, ⟨"b", true, true, .absent⟩] true ∧
    List.Sorted (fun x y : String => x ≤ y)
      (GaussianSubmit.list_job_status
        [⟨"b", true, true, .absent⟩, ⟨"a", true, true, .absent⟩] true) :=
  ⟨c4_amended.2.1 _ _ true (by decide) (by decide),
   c4_amended.1 _ true⟩

end SACP
